import Mathlib

/-!
Verification development for the shape path engine of
src/plots/cartesian/new_shape.js.

The JavaScript numbers are modelled as real numbers (exact arithmetic, the
standard idealization of the float computations the file performs); JS
strings are Lean strings.  A drawing command tuple such as [letter, x, y]
is a heterogeneous JS array and is modelled as a list of values that are
either a command letter or a number.  The external path tokenizer
(parse-svg-path, declared an external correct collaborator by the spec) is
modelled at its interface: readPaths consumes the token list
[letter, ...numericArgs] the tokenizer yields, and the token-level encoder
writePathsTok is the composition of the string encoder writePaths with that
tokenizer.
-/

namespace NewShape

/-- The command letters of the supported path syntax. -/
inductive SvgLetter where
  | M | L | Q | S | C | T | H | V | A | Z
deriving DecidableEq, Repr

/-- One entry of a JS command tuple: a command letter or a number. -/
inductive SVal where
  | ltr (w : SvgLetter)
  | num (r : ℝ)

/-- A command tuple [letter, x, y, ...extra], e.g. ['M', 0, 0]. -/
abbrev Tup := List SVal

/-- A cell: one contiguous sub-path, an ordered list of command tuples. -/
abbrev Cell := List Tup

/-- A polygon set: the ordered cells decoded from one path string. -/
abbrev Polygons := List Cell

/-- A raw command as the external tokenizer yields it: [letter, ...args]. -/
abbrev RawCmd := SvgLetter × List ℝ

/-- The letter at index 0 of a tuple, if it is a letter. -/
def letAt (t : Tup) : Option SvgLetter :=
  match t with
  | .ltr w :: _ => some w
  | _ => none

/-- The number stored at index k of a tuple (0 for a missing or non-number
slot; such a slot is never read on tuples the engine builds). -/
def numAt (t : Tup) (k : ℕ) : ℝ :=
  match t[k]? with
  | some (.num r) => r
  | _ => 0

/-- Tuple at index i of a cell (cell[i]). -/
def tupAt (c : Cell) (i : ℕ) : Tup := c.getD i []

/-- cell[i][k] as a number. -/
def cellNum (c : Cell) (i k : ℕ) : ℝ := numAt (tupAt c i) k

/-- CIRCLE_SIDES = 32, the fixed number of sides of the polygonal ellipse. -/
def CIRCLE_SIDES : ℕ := 32

def i000 : ℕ := 0
def i045 : ℕ := CIRCLE_SIDES / 8
def i090 : ℕ := CIRCLE_SIDES / 4
def i180 : ℕ := CIRCLE_SIDES / 2
def i270 : ℕ := CIRCLE_SIDES / 4 * 3

noncomputable def cos45 : ℝ := Real.cos (Real.pi / 4)
noncomputable def sin45 : ℝ := Real.sin (Real.pi / 4)
noncomputable def SQRT2 : ℝ := Real.sqrt 2

/-- var iC = [0, 3, 4, 5, 6, 1, 2]: serialization order of C tuples. -/
def iC : List ℕ := [0, 3, 4, 5, 6, 1, 2]

/-- var iQS = [0, 3, 4, 1, 2]: serialization order of Q and S tuples. -/
def iQS : List ℕ := [0, 3, 4, 1, 2]

/-- The index permutation writePaths applies at position k of a tuple whose
letter is w (realK in the source). -/
def permIdx (w : Option SvgLetter) (k : ℕ) : ℕ :=
  if w = some .Q ∨ w = some .S then iQS.getD k k
  else if w = some .C then iC.getD k k
  else k

def SvgLetter.str : SvgLetter → String
  | .M => "M" | .L => "L" | .Q => "Q" | .S => "S" | .C => "C"
  | .T => "T" | .H => "H" | .V => "V" | .A => "A" | .Z => "Z"

/-- One JS array entry rendered as a string; fmt is the JS number-to-string
conversion. -/
def entryStr (fmt : ℝ → String) : SVal → String
  | .ltr w => w.str
  | .num r => fmt r

/-- writePaths on one tuple: a bare Z for a Z tuple, otherwise the entries in
serialization order with commas between the interior arguments. -/
def writeTupStr (fmt : ℝ → String) (t : Tup) : String :=
  match letAt t with
  | some .Z => "Z"
  | _ =>
    String.join ((List.range t.length).map (fun k =>
      entryStr fmt (t.getD (permIdx (letAt t) k) (.num 0)) ++
        (if 0 < k ∧ k < t.length - 1 then "," else "")))

/-- writePaths(polygons): the path string, with the degenerate placeholder
M0,0Z for an empty polygon set. -/
def writePaths (fmt : ℝ → String) (polygons : Polygons) : String :=
  if polygons.length = 0 then "M0,0Z"
  else String.join (polygons.map (fun c => String.join (c.map (writeTupStr fmt))))

/-- One tuple as the external tokenizer re-reads it from writePaths output:
the letter, then the numeric arguments in serialization order (none for Z). -/
def serTup (t : Tup) : RawCmd :=
  match letAt t with
  | some .Z => (.Z, [])
  | some w => (w, (List.range (t.length - 1)).map (fun k => numAt t (permIdx (some w) (k + 1))))
  | none => (.Z, [])

def serCell (c : Cell) : List RawCmd := c.map serTup

/-- Modelled from the spec: writePaths followed by the external tokenizer
(parse-svg-path), which the spec declares a correct external collaborator
yielding [letter, ...numericArgs] tuples.  Tokenizing the string writePaths
emits recovers exactly one raw command per tuple (Z bare, every other tuple
its letter followed by its arguments in serialization order), and M0,0Z
tokenizes to M(0,0) then Z. -/
def writePathsTok (polygons : Polygons) : List RawCmd :=
  if polygons.length = 0 then [(.M, [0, 0]), (.Z, [])]
  else (polygons.map serCell).flatten

/-- gd._fullLayout._size: margins l, t and plot pixel size w, h. -/
structure Size where
  l : ℝ
  t : ℝ
  w : ℝ
  h : ℝ

/-- An axis that carries a pixel-to-range capability (p2r) and a pixel
offset, as readPaths consumes it. -/
structure AxisInfo where
  offset : ℝ
  p2r : ℝ → ℝ
  id : String

/-- plotinfo.domain: the sub-plot domain fractions used by readPaths
(domain.x[0] and domain.y[1]). -/
structure DomainInfo where
  x0 : ℝ
  x1 : ℝ
  y0 : ℝ
  y1 : ℝ

/-- plotinfo: optional axes (absence of an axis, or of its p2r capability,
signals paper-referenced mode) and optional domain. -/
structure PlotInfo where
  xaxis : Option AxisInfo
  yaxis : Option AxisInfo
  domain : Option DomainInfo

/-- The x pixel-to-data map inlined in readPaths: delegate to the axis p2r
when available, otherwise normalize against the plot width (and domain),
subtracting the offset only when isActiveShape === false. -/
noncomputable def trX (pinfo : Option PlotInfo) (sz : Size) (act : Option Bool) (px : ℝ) : ℝ :=
  match pinfo with
  | none => px
  | some p =>
    match p.xaxis with
    | some ax => ax.p2r (if act = some false then px - ax.offset else px)
    | none =>
      let px := if act = some false then px - sz.l else px
      match p.domain with
      | some dm => dm.x0 + px / sz.w
      | none => px / sz.w

/-- The y pixel-to-data map inlined in readPaths; y is inverted in paper
mode (1 - fraction, or domain.y1 - fraction). -/
noncomputable def trY (pinfo : Option PlotInfo) (sz : Size) (act : Option Bool) (py : ℝ) : ℝ :=
  match pinfo with
  | none => py
  | some p =>
    match p.yaxis with
    | some ax => ax.p2r (if act = some false then py - ax.offset else py)
    | none =>
      let py := if act = some false then py - sz.t else py
      match p.domain with
      | some dm => dm.y1 - py / sz.h
      | none => 1 - py / sz.h

/-- One iteration of the coordinate loop of readPaths at slot pair
(k+1, k+2): transform the pair when both slots hold numbers, else skip. -/
noncomputable def trPair (pinfo : Option PlotInfo) (sz : Size) (act : Option Bool)
    (t : Tup) (k : ℕ) : Tup :=
  match t[k + 1]?, t[k + 2]? with
  | some (.num a), some (.num b) =>
      (t.set (k + 1) (.num (trX pinfo sz act a))).set (k + 2) (.num (trY pinfo sz act b))
  | _, _ => t

/-- The full coordinate transform readPaths applies to one stored tuple
(slot pairs at k = 0, 2, 4). -/
noncomputable def transformTup (pinfo : Option PlotInfo) (sz : Size) (act : Option Bool)
    (t : Tup) : Tup :=
  trPair pinfo sz act (trPair pinfo sz act (trPair pinfo sz act t 0) 2) 4

/-- The walking state of readPaths: finished cells, the cell being filled
(none before the first M; the source would fault there), the current point
and the sub-path start, all in pixel space. -/
@[ext]
structure RS where
  done : List Cell
  cur : Option Cell
  x : ℝ
  y : ℝ
  initX : ℝ
  initY : ℝ

/-- Push one synthesized tuple: track the current point from its slots 1, 2
(pre-transform, as the source does) and append the transformed tuple to the
cell being filled. -/
noncomputable def pushPos (pinfo : Option PlotInfo) (sz : Size) (act : Option Bool)
    (s : RS) (t : Tup) : RS :=
  { s with
    x := numAt t 1
    y := numAt t 2
    cur := s.cur.map (· ++ [transformTup pinfo sz act t]) }

open Classical in
/-- Process one raw command of readPaths: the switch of the source followed
by the per-tuple coordinate loop. -/
noncomputable def readCmd (pinfo : Option PlotInfo) (sz : Size) (act : Option Bool)
    (s : RS) (c : RawCmd) : RS :=
  let arg : ℕ → ℝ := fun i => c.2.getD i 0
  let step : RS → List Tup → RS := fun s' ts => ts.foldl (pushPos pinfo sz act) s'
  match c.1 with
  | .M =>
      step { done := s.done ++ s.cur.toList, cur := some [], x := arg 0, y := arg 1,
             initX := arg 0, initY := arg 1 }
        [[.ltr .M, .num (arg 0), .num (arg 1)]]
  | .L => step { s with x := arg 0, y := arg 1 } [[.ltr .L, .num (arg 0), .num (arg 1)]]
  | .T => step { s with x := arg 0, y := arg 1 } [[.ltr .T, .num (arg 0), .num (arg 1)]]
  | .H => step { s with x := arg 0 } [[.ltr .L, .num (arg 0), .num s.y]]
  | .V => step { s with y := arg 0 } [[.ltr .L, .num s.x, .num (arg 0)]]
  | .Q => step { s with x := arg 2, y := arg 3 }
      [[.ltr .Q, .num (arg 2), .num (arg 3), .num (arg 0), .num (arg 1)]]
  | .S => step { s with x := arg 2, y := arg 3 }
      [[.ltr .S, .num (arg 2), .num (arg 3), .num (arg 0), .num (arg 1)]]
  | .C => step { s with x := arg 4, y := arg 5 }
      [[.ltr .C, .num (arg 4), .num (arg 5), .num (arg 0), .num (arg 1), .num (arg 2), .num (arg 3)]]
  | .A =>
      let rx := if arg 3 = 0 then -(arg 0) else arg 0
      let ry := if arg 3 = 0 then -(arg 1) else arg 1
      let cenX := s.x - rx
      let cenY := s.y
      step s ((List.range (CIRCLE_SIDES / 2)).map (fun k =>
        [.ltr .L,
         .num (cenX + rx * Real.cos (2 * Real.pi * (k + 1) / CIRCLE_SIDES)),
         .num (cenY + ry * Real.sin (2 * Real.pi * (k + 1) / CIRCLE_SIDES))]))
  | .Z =>
      if s.x ≠ s.initX ∨ s.y ≠ s.initY then
        step { s with x := s.initX, y := s.initY }
          [[.ltr .Z, .num s.initX, .num s.initY]]
      else s

/-- readPaths: walk the tokenized commands and return the polygon set. -/
noncomputable def readPaths (cmds : List RawCmd) (pinfo : Option PlotInfo) (sz : Size)
    (act : Option Bool) : Polygons :=
  let s := cmds.foldl (readCmd pinfo sz act) ⟨[], none, 0, 0, 0, 0⟩
  s.done ++ s.cur.toList

/-- almostEq(a, b): |a - b| <= 1e-6. -/
def almostEq (a b : ℝ) : Prop := |a - b| ≤ 1e-6

/-- dist(a, b): euclidean distance between the endpoints of two tuples. -/
noncomputable def dist (a b : Tup) : ℝ :=
  Real.sqrt ((numAt b 1 - numAt a 1) * (numAt b 1 - numAt a 1) +
             (numAt b 2 - numAt a 2) * (numAt b 2 - numAt a 2))

/-- pointsShapeRectangle(cell): exactly 5 entries, a parallelogram test per
axis under tolerance, a shared-x test between vertex 0 and its neighbours,
and a nonzero-area test. -/
def pointsShapeRectangle (cell : Cell) : Prop :=
  cell.length = 5 ∧
  (∀ j ∈ ([1, 2] : List ℕ),
    almostEq (cellNum cell 0 j - cellNum cell 1 j) (cellNum cell 3 j - cellNum cell 2 j) ∧
    almostEq (cellNum cell 0 j - cellNum cell 3 j) (cellNum cell 1 j - cellNum cell 2 j)) ∧
  (almostEq (cellNum cell 0 1) (cellNum cell 1 1) ∨
   almostEq (cellNum cell 0 1) (cellNum cell 3 1)) ∧
  dist (tupAt cell 0) (tupAt cell 1) * dist (tupAt cell 0) (tupAt cell 3) ≠ 0

/-- pointsShapeEllipse(cell): exactly CIRCLE_SIDES + 1 entries and the
mirror-symmetric pairing of opposite-vertex diagonal lengths. -/
def pointsShapeEllipse (cell : Cell) : Prop :=
  cell.length = CIRCLE_SIDES + 1 ∧
  ∀ i < CIRCLE_SIDES,
    almostEq
      (dist (tupAt cell i) (tupAt cell ((CIRCLE_SIDES / 2 + i) % CIRCLE_SIDES)))
      (dist (tupAt cell ((CIRCLE_SIDES * 2 - i) % CIRCLE_SIDES))
            (tupAt cell ((CIRCLE_SIDES / 2 + (CIRCLE_SIDES * 2 - i) % CIRCLE_SIDES) % CIRCLE_SIDES)))

/-- A corner pair {x0, y0, x1, y1} as ellipseOver consumes and returns it. -/
@[ext]
structure Pos where
  x0 : ℝ
  y0 : ℝ
  x1 : ℝ
  y1 : ℝ

/-- ellipseOver(pos): the bounding box of the ellipse drawn from the two
drag corners (rotate the drag rectangle 45 degrees about its far corner and
scale by sqrt 2). -/
noncomputable def ellipseOver (pos : Pos) : Pos :=
  let dx := pos.x1 - pos.x0
  let dy := pos.y1 - pos.y0
  let x0 := pos.x0 - dx
  let y0 := pos.y0 - dy
  let cx := (x0 + pos.x1) / 2
  let cy := (y0 + pos.y1) / 2
  let dx2 := dx * SQRT2
  let dy2 := dy * SQRT2
  ⟨cx - dx2, cy - dy2, cx + dx2, cy + dy2⟩

open Classical in
/-- handleEllipse(isEllipse, start, end): the list of vertex pairs of the
drawn shape; for an ellipse, the CIRCLE_SIDES samples of the ellipse whose
bounding box ellipseOver yields, with a circle synthesized when one radius
is zero. -/
noncomputable def handleEllipse (isEllipse : Bool) (start stop : ℝ × ℝ) : List (ℝ × ℝ) :=
  if !isEllipse then [start, stop]
  else
    let pos := ellipseOver ⟨start.1, start.2, stop.1, stop.2⟩
    let cx := (pos.x1 + pos.x0) / 2
    let cy := (pos.y1 + pos.y0) / 2
    let rx := (pos.x1 - pos.x0) / 2
    let ry := (pos.y1 - pos.y0) / 2
    let rx1 := if rx = 0 then ry / SQRT2 else rx
    let ry1 := if rx = 0 then ry / SQRT2 else ry
    let rx2 := if ry1 = 0 then rx1 / SQRT2 else rx1
    let ry2 := if ry1 = 0 then rx1 / SQRT2 else ry1
    (List.range CIRCLE_SIDES).map (fun (i : ℕ) =>
      (cx + rx2 * (Real.cos (i * 2 * Real.pi / CIRCLE_SIDES)),
       cy + ry2 * (Real.sin (i * 2 * Real.pi / CIRCLE_SIDES))))

/-- Modelled from the spec: the glue (outside this source unit) that carries
the vertex pairs of the live outline through encode and decode into a codec
cell preserves the vertex coordinates in order; only slots 1 and 2 of each
tuple are read by the corner derivations. -/
def cellOfPairs (ps : List (ℝ × ℝ)) : Cell :=
  ps.map (fun p => [.ltr .L, .num p.1, .num p.2])

/-- The drawcircle corner derivation of addNewShapes for a fresh draw
(isActiveShape === false): centre from the cardinal samples, radii from the
cardinal differences, then ellipseOver of the 45-degree-scaled point. -/
noncomputable def circleCornersFresh (cell : Cell) : Pos :=
  let x0 := (cellNum cell i090 1 + cellNum cell i270 1) / 2
  let y0 := (cellNum cell i000 2 + cellNum cell i180 2) / 2
  let rx := (cellNum cell i270 1 - cellNum cell i090 1 +
             cellNum cell i180 1 - cellNum cell i000 1) / 2
  let ry := (cellNum cell i270 2 - cellNum cell i090 2 +
             cellNum cell i180 2 - cellNum cell i000 2) / 2
  ellipseOver ⟨x0, y0, x0 + rx * cos45, y0 + ry * sin45⟩

/-- The drawcircle corner derivation of addNewShapes for an edited active
shape: centre from the 0/180 degree samples, the 45-degree sample as the
second corner. -/
noncomputable def circleCornersEdit (cell : Cell) : Pos :=
  ellipseOver ⟨(cellNum cell i000 1 + cellNum cell i180 1) / 2,
               (cellNum cell i000 2 + cellNum cell i180 2) / 2,
               cellNum cell i045 1,
               cellNum cell i045 2⟩

/-- The shape.type values the synthesizer writes. -/
inductive ShapeType where
  | line | rect | circle | path
deriving DecidableEq, Repr

/-- A shape description record as addNewShapes builds it. -/
structure Shape where
  editable : Bool := true
  xref : String := "paper"
  yref : String := "paper"
  layer : String := "above"
  opacity : ℝ := 1
  lineColor : String := ""
  lineWidth : ℝ := 4
  lineDash : String := "solid"
  fillcolor : Option String := none
  fillrule : Option String := none
  shapeType : Option ShapeType := none
  x0 : Option ℝ := none
  x1 : Option ℝ := none
  y0 : Option ℝ := none
  y1 : Option ℝ := none
  path : Option String := none

instance : Inhabited Shape := ⟨{}⟩

/-- The drawing modes the synthesizer distinguishes. -/
inductive DragMode where
  | drawrect | drawline | drawcircle | drawclosedpath | drawopenpath
deriving DecidableEq, Repr

/-- Modelled from the spec: openMode of the external drag helpers; the open
(unfilled) modes are the line and the open path. -/
def openMode (dm : DragMode) : Bool :=
  dm = DragMode.drawline || dm = DragMode.drawopenpath

/-- The per-gesture configuration addNewShapes reads: the effective
dragmode, the active-shape flag, the paper/axis reference decision, the
newshape style and the JS number formatting used for path re-encoding. -/
structure DrawCfg where
  dragmode : DragMode
  act : Option Bool
  onPaper : Bool
  xid : String := "x"
  yid : String := "y"
  layer : String := "above"
  opacity : ℝ := 1
  lineColor : String := ""
  lineWidth : ℝ := 4
  lineDash : String := "solid"
  fillcolor : String := ""
  fillrule : String := "evenodd"
  fmt : ℝ → String

open Classical in
/-- The per-cell body of the addNewShapes loop: cells of fewer than 2
tuples are skipped, every other cell becomes one shape record whose anchors
follow the dragmode and the classification. -/
noncomputable def synthCell (cfg : DrawCfg) (cell : Cell) : Option Shape :=
  if cell.length < 2 then none
  else
    let base : Shape :=
      { editable := true
        xref := if cfg.onPaper then "paper" else cfg.xid
        yref := if cfg.onPaper then "paper" else cfg.yid
        layer := cfg.layer
        opacity := cfg.opacity
        lineColor := cfg.lineColor
        lineWidth := cfg.lineWidth
        lineDash := cfg.lineDash
        fillcolor := if openMode cfg.dragmode then none else some cfg.fillcolor
        fillrule := if openMode cfg.dragmode then none else some cfg.fillrule }
    some (
      if cfg.dragmode = .drawrect ∧ pointsShapeRectangle cell then
        { base with shapeType := some .rect
                    x0 := some (cellNum cell 0 1), y0 := some (cellNum cell 0 2)
                    x1 := some (cellNum cell 2 1), y1 := some (cellNum cell 2 2) }
      else if cfg.dragmode = .drawline then
        { base with shapeType := some .line
                    x0 := some (cellNum cell 0 1), y0 := some (cellNum cell 0 2)
                    x1 := some (cellNum cell 1 1), y1 := some (cellNum cell 1 2) }
      else if cfg.dragmode = .drawcircle ∧ (cfg.act = some false ∨ pointsShapeEllipse cell) then
        let pos := if cfg.act = some false then circleCornersFresh cell else circleCornersEdit cell
        { base with shapeType := some .circle
                    x0 := some pos.x0, y0 := some pos.y0
                    x1 := some pos.x1, y1 := some pos.y1 }
      else
        { base with shapeType := some .path, path := some (writePaths cfg.fmt [cell]) })

/-- The newShapes list addNewShapes builds from the decoded polygons. -/
noncomputable def newShapesOf (cfg : DrawCfg) (cells : List Cell) : List Shape :=
  cells.filterMap (synthCell cfg)

/-- The keys hasChanged is called with. -/
inductive SKey where
  | x0 | x1 | y0 | y1 | path
deriving DecidableEq, Repr

/-- A JS property read beforeEdit[k]: a number, a string, or undefined. -/
def getKey (s : Shape) : SKey → Option (ℝ ⊕ String)
  | .x0 => s.x0.map Sum.inl
  | .x1 => s.x1.map Sum.inl
  | .y0 => s.y0.map Sum.inl
  | .y1 => s.y1.map Sum.inl
  | .path => s.path.map Sum.inr

/-- hasChanged(beforeEdit, afterEdit, keys): some listed key differs under
exact (strict) comparison. -/
def hasChanged (beforeEdit afterEdit : Shape) (keys : List SKey) : Prop :=
  ∃ k ∈ keys, getKey beforeEdit k ≠ getKey afterEdit k

/-- The key list ['x0', 'x1', 'y0', 'y1']. -/
def anchorKeys : List SKey := [.x0, .x1, .y0, .y1]

open Classical in
/-- The reconciliation switch of addNewShapes for the active entry:
beforeEdit is the current full shape, inp its original input record (what
the returned list holds), afterEdit the synthesized record; the anchor
fields of the entry are overwritten only when hasChanged holds on the keys
relevant to the type, and the second component is updatedActiveShape. -/
noncomputable def reconcileEntry (beforeEdit inp afterEdit : Shape) : Shape × Bool :=
  match beforeEdit.shapeType with
  | some .line | some .rect | some .circle =>
      if hasChanged beforeEdit afterEdit anchorKeys then
        ({ inp with x0 := afterEdit.x0, x1 := afterEdit.x1,
                    y0 := afterEdit.y0, y1 := afterEdit.y1 }, true)
      else (inp, false)
  | some .path =>
      if hasChanged beforeEdit afterEdit [SKey.path] then
        ({ inp with path := afterEdit.path }, true)
      else (inp, false)
  | _ => (inp, false)

/-- A JS string property coerced into string concatenation (undefined
becomes the text undefined, as + does in JS). -/
def jsStr : Option String → String
  | some s => s
  | none => "undefined"

/-- The multi-cell path concatenation applied to afterEdit when the active
shape is a path: the paths of the remaining new shapes are appended. -/
def concatPaths (afterEdit : Shape) (rest : List Shape) : Shape :=
  { afterEdit with
    path := some (rest.foldl (fun acc s => acc ++ jsStr s.path) (jsStr afterEdit.path)) }

/-- A persistent shape entry: the full computed record and its original
input record (beforeEdit and beforeEdit._input). -/
structure GdShape where
  full : Shape
  input : Shape

instance : Inhabited GdShape := ⟨⟨{}, {}⟩⟩

/-- The dragmode override addNewShapes applies while editing an active
shape: the mode is forced from the stored type of that shape. -/
def overrideMode (dm : DragMode) (act : Option Bool) (existing : List GdShape)
    (activeIndex : ℕ) : DragMode :=
  match act with
  | none => dm
  | some _ =>
    if activeIndex < existing.length then
      match (existing.getD activeIndex default).full.shapeType with
      | some .rect => .drawrect
      | some .circle => .drawcircle
      | some .line => .drawline
      | some .path =>
          if (jsStr (existing.getD activeIndex default).full.path).back = 'Z'
          then .drawclosedpath else .drawopenpath
      | none => dm
    else dm

/-- onPaper: a domain is present, or an axis is missing. -/
def onPaperOf (pinfo : Option PlotInfo) : Bool :=
  match pinfo with
  | none => true
  | some p => p.domain.isSome || !(p.xaxis.isSome && p.yaxis.isSome)

open Classical in
/-- addNewShapes, assembled from the pieces above: decode the committed
path, synthesize one record per surviving cell, then either reconcile the
active entry or append the new records; none models the undefined return
when nothing was drawn. -/
noncomputable def addNewShapes (d : List RawCmd) (pinfo : Option PlotInfo) (sz : Size)
    (act : Option Bool) (dm : DragMode) (cfg0 : DrawCfg)
    (existing : List GdShape) (activeIndex : ℕ) : Option (List Shape) :=
  let dragmode := overrideMode dm act existing activeIndex
  let cfg : DrawCfg := { cfg0 with
    dragmode := dragmode
    act := act
    onPaper := onPaperOf pinfo }
  let polygons := readPaths d pinfo sz act
  let newShapes := newShapesOf cfg polygons
  if newShapes.length = 0 then none
  else
    let shapes := (List.range existing.length).map (fun q =>
      let beforeEdit := (existing.getD q default).full
      let inp := (existing.getD q default).input
      if act ≠ none ∧ q = activeIndex then
        let a0 := newShapes.headD default
        let afterEdit :=
          if beforeEdit.shapeType = some .path then concatPaths a0 newShapes.tail else a0
        (reconcileEntry beforeEdit inp afterEdit).1
      else inp)
    some (if act = none then shapes ++ newShapes else shapes)

/-- removeVertex: drop tuple indexJ of cell indexI (a no-op on an empty
polygon list, as the guard in the source). -/
def removeVertex (polygons : Polygons) (indexI indexJ : ℕ) : Polygons :=
  if polygons.length = 0 then polygons
  else polygons.set indexI ((polygons.getD indexI []).eraseIdx indexJ)

/-- clickVertexController: on a double click, remove the indexed vertex
only when its cell keeps more than 4 entries. -/
def clickVertexController (numClicks : ℕ) (polygons : Polygons) (indexI indexJ : ℕ) : Polygons :=
  if numClicks = 2 then
    if (polygons.getD indexI []).length > 4 then removeVertex polygons indexI indexJ
    else polygons
  else polygons

/-- Shape test for a tuple readPaths can store past the head of a cell
(other than a closing tuple): a line or T endpoint, a Q or S tuple, or a C
tuple, each with its fixed arity. -/
def tupOK : Tup → Bool
  | [.ltr w, .num _, .num _] => w == .L || w == .T
  | [.ltr w, .num _, .num _, .num _, .num _] => w == .Q || w == .S
  | [.ltr .C, .num _, .num _, .num _, .num _, .num _, .num _] => true
  | _ => false

/-- The current point after walking a list of stored tuples from (px, py):
each tuple moves it to its slots 1 and 2. -/
def chainEnd (px py : ℝ) : List Tup → ℝ × ℝ
  | [] => (px, py)
  | t :: rest => chainEnd (numAt t 1) (numAt t 2) rest

/-- Wellformedness of the tail of a decoded cell whose M tuple holds
(mx, my), walking from the current point (px, py): every tuple is either a
shape-correct drawing tuple or the closing tuple [Z, mx, my] appended only
when the current point differs from the start. -/
def cellTailWF (mx my px py : ℝ) : List Tup → Prop
  | [] => True
  | t :: rest =>
      (tupOK t = true ∨ (t = [.ltr .Z, .num mx, .num my] ∧ (px ≠ mx ∨ py ≠ my))) ∧
      cellTailWF mx my (numAt t 1) (numAt t 2) rest

/-- Wellformedness of a decoded cell: an M head of exactly two coordinates
followed by a wellformed tail. -/
def CellWF (c : Cell) : Prop :=
  ∃ mx my rest, c = [.ltr .M, .num mx, .num my] :: rest ∧ cellTailWF mx my mx my rest

/-- The invariant the readPaths walk preserves (with no coordinate
context): finished cells are wellformed, and the cell being filled is
wellformed with the tracked current point and sub-path start agreeing with
its stored coordinates. -/
def StateInv (s : RS) : Prop :=
  (∀ c ∈ s.done, CellWF c) ∧
  ∀ c, s.cur = some c →
    ∃ mx my rest, c = [.ltr .M, .num mx, .num my] :: rest ∧
      cellTailWF mx my mx my rest ∧ s.initX = mx ∧ s.initY = my ∧
      (s.x, s.y) = chainEnd mx my rest

/-- The rectangle predicate exactly as claim C2 words it: identical to the
source predicate except that the shared-x condition asks for an exact
shared x-coordinate between some pair of adjacent vertices. -/
def rectangleClaimExact (cell : Cell) : Prop :=
  cell.length = 5 ∧
  (∀ j ∈ ([1, 2] : List ℕ),
    almostEq (cellNum cell 0 j - cellNum cell 1 j) (cellNum cell 3 j - cellNum cell 2 j) ∧
    almostEq (cellNum cell 0 j - cellNum cell 3 j) (cellNum cell 1 j - cellNum cell 2 j)) ∧
  (∃ i < 4, cellNum cell i 1 = cellNum cell (i + 1) 1) ∧
  dist (tupAt cell 0) (tupAt cell 1) ≠ 0 ∧
  dist (tupAt cell 0) (tupAt cell 3) ≠ 0

/-- The amended rectangle characterization: as the claim, but the shared-x
condition is the tolerance comparison the source makes, between vertex 0
and vertex 1 or vertex 3. -/
def rectangleClaimAmended (cell : Cell) : Prop :=
  cell.length = 5 ∧
  (∀ j ∈ ([1, 2] : List ℕ),
    almostEq (cellNum cell 0 j - cellNum cell 1 j) (cellNum cell 3 j - cellNum cell 2 j) ∧
    almostEq (cellNum cell 0 j - cellNum cell 3 j) (cellNum cell 1 j - cellNum cell 2 j)) ∧
  (almostEq (cellNum cell 0 1) (cellNum cell 1 1) ∨
   almostEq (cellNum cell 0 1) (cellNum cell 3 1)) ∧
  dist (tupAt cell 0) (tupAt cell 1) ≠ 0 ∧
  dist (tupAt cell 0) (tupAt cell 3) ≠ 0

/-- A 5-entry quad that the source accepts as a rectangle although no pair
of adjacent vertices shares an exact x-coordinate (vertex 1 and vertex 2
are shifted right by 1e-7, within the 1e-6 tolerance). -/
noncomputable def rectCex : Cell :=
  [[.ltr .M, .num 0, .num 0],
   [.ltr .L, .num 1e-7, .num 1],
   [.ltr .L, .num (2 + 1e-7), .num 1],
   [.ltr .L, .num 2, .num 0],
   [.ltr .Z, .num 0, .num 0]]

/-- The ellipse predicate as claim C3 words it: the mirrored index written
as (-i) mod CIRCLE_SIDES and the antipodal index as + CIRCLE_SIDES / 2 mod
CIRCLE_SIDES. -/
def ellipseClaim (cell : Cell) : Prop :=
  cell.length = CIRCLE_SIDES + 1 ∧
  ∀ i < CIRCLE_SIDES,
    almostEq
      (dist (tupAt cell i) (tupAt cell ((i + CIRCLE_SIDES / 2) % CIRCLE_SIDES)))
      (dist (tupAt cell ((-(i : ℤ) % (CIRCLE_SIDES : ℤ)).toNat))
            (tupAt cell (((-(i : ℤ) % (CIRCLE_SIDES : ℤ)).toNat + CIRCLE_SIDES / 2) % CIRCLE_SIDES)))

lemma set_get_same {α : Type _} :
    ∀ (l : List α) (i : ℕ) (v : α), l[i]? = some v → l.set i v = l := by
  intro l
  induction l with
  | nil => intro i v h; simp at h
  | cons a l ih =>
    intro i v h
    cases i with
    | zero => simp at h; simp [h]
    | succ i => simp at h; simp [ih i v h]

lemma trX_none (sz : Size) (act : Option Bool) (px : ℝ) : trX none sz act px = px := rfl

lemma trY_none (sz : Size) (act : Option Bool) (py : ℝ) : trY none sz act py = py := rfl

lemma trPair_none (sz : Size) (act : Option Bool) (t : Tup) (k : ℕ) :
    trPair none sz act t k = t := by
  unfold trPair
  split
  · next a b h1 h2 =>
      rw [trX_none, trY_none, set_get_same t (k + 1) (.num a) h1]
      exact set_get_same t (k + 2) (.num b) h2
  · rfl

lemma transformTup_none (sz : Size) (act : Option Bool) (t : Tup) :
    transformTup none sz act t = t := by
  unfold transformTup
  rw [trPair_none, trPair_none, trPair_none]

lemma foldl_pushPos_none (sz : Size) (act : Option Bool) :
    ∀ (ts : List Tup) (s : RS),
      ts.foldl (pushPos none sz act) s =
        ⟨s.done, s.cur.map (· ++ ts), (chainEnd s.x s.y ts).1, (chainEnd s.x s.y ts).2,
         s.initX, s.initY⟩ := by
  intro ts
  induction ts with
  | nil =>
      intro s
      simp [chainEnd]
  | cons t ts ih =>
      intro s
      rw [List.foldl_cons, ih]
      simp only [pushPos, transformTup_none, chainEnd, Option.map_map]
      ext <;> simp [Function.comp]

lemma numAt_1 (w : SvgLetter) (a b : ℝ) (rest : List SVal) :
    numAt (.ltr w :: .num a :: .num b :: rest) 1 = a := by simp [numAt]

lemma numAt_2 (w : SvgLetter) (a b : ℝ) (rest : List SVal) :
    numAt (.ltr w :: .num a :: .num b :: rest) 2 = b := by simp [numAt]

lemma chainEnd_append (l1 l2 : List Tup) : ∀ px py : ℝ,
    chainEnd px py (l1 ++ l2) =
      chainEnd (chainEnd px py l1).1 (chainEnd px py l1).2 l2 := by
  induction l1 with
  | nil => intro px py; simp [chainEnd]
  | cons t l ih => intro px py; simp [chainEnd, ih]

lemma cellTailWF_append (mx my : ℝ) :
    ∀ (l : List Tup) (px py : ℝ) (t : Tup),
      cellTailWF mx my px py l →
      (tupOK t = true ∨
        (t = [.ltr .Z, .num mx, .num my] ∧
          ((chainEnd px py l).1 ≠ mx ∨ (chainEnd px py l).2 ≠ my))) →
      cellTailWF mx my px py (l ++ [t]) := by
  intro l
  induction l with
  | nil =>
      intro px py t _ ht
      exact ⟨by simpa [chainEnd] using ht, trivial⟩
  | cons u l ih =>
      intro px py t h ht
      exact ⟨h.1, ih _ _ t h.2 (by simpa [chainEnd] using ht)⟩

lemma cellTailWF_append_list (mx my : ℝ) :
    ∀ (ts l : List Tup) (px py : ℝ),
      (∀ t ∈ ts, tupOK t = true) →
      cellTailWF mx my px py l →
      cellTailWF mx my px py (l ++ ts) := by
  intro ts
  induction ts with
  | nil => intro l px py _ h; simpa using h
  | cons t ts ih =>
      intro l px py hts h
      have h1 : cellTailWF mx my px py (l ++ [t]) :=
        cellTailWF_append mx my l px py t h (Or.inl (hts t (by simp)))
      have h2 := ih (l ++ [t]) px py (fun u hu => hts u (by simp [hu])) h1
      simpa [List.append_assoc] using h2

lemma StateInv_pushList (s : RS) (hinv : StateInv s) (ts : List Tup)
    (hts : ∀ t ∈ ts, tupOK t = true) :
    StateInv ⟨s.done, s.cur.map (· ++ ts), (chainEnd s.x s.y ts).1,
              (chainEnd s.x s.y ts).2, s.initX, s.initY⟩ := by
  obtain ⟨hdone, hcur⟩ := hinv
  refine ⟨hdone, ?_⟩
  intro c hc
  cases hs : s.cur with
  | none => rw [hs] at hc; simp at hc
  | some c0 =>
      rw [hs] at hc
      simp at hc
      obtain ⟨mx, my, rest, hc0, hwf, hix, hiy, hxy⟩ := hcur c0 hs
      refine ⟨mx, my, rest ++ ts, by rw [← hc, hc0]; simp, ?_, hix, hiy, ?_⟩
      · exact cellTailWF_append_list mx my ts rest mx my hts hwf
      · rw [chainEnd_append, ← hxy]

lemma readCmd_inv (sz : Size) (act : Option Bool) (s : RS) (c : RawCmd)
    (h : StateInv s) : StateInv (readCmd none sz act s c) := by
  obtain ⟨hdone, hcur⟩ := h
  obtain ⟨w, args⟩ := c
  cases w with
  | M =>
      simp only [readCmd]
      rw [foldl_pushPos_none]
      simp only [chainEnd, numAt_1, numAt_2]
      constructor
      · intro c hc
        simp only [List.mem_append] at hc
        rcases hc with hc | hc
        · exact hdone c hc
        · cases hs : s.cur with
          | none => rw [hs] at hc; simp at hc
          | some c0 =>
              rw [hs] at hc; simp at hc
              obtain ⟨mx, my, rest, hc0, hwf, _, _, _⟩ := hcur c0 hs
              exact ⟨mx, my, rest, by rw [hc, hc0], hwf⟩
      · intro c hc
        simp at hc
        refine ⟨args.getD 0 0, args.getD 1 0, [], ?_, trivial, rfl, rfl, ?_⟩
        · simpa using hc.symm
        · simp [chainEnd]
  | L =>
      simp only [readCmd]
      rw [foldl_pushPos_none]
      simpa [chainEnd, numAt_1, numAt_2] using
        StateInv_pushList s ⟨hdone, hcur⟩
          [[.ltr .L, .num (args.getD 0 0), .num (args.getD 1 0)]]
          (by intro u hu; simp at hu; subst hu; rfl)
  | T =>
      simp only [readCmd]
      rw [foldl_pushPos_none]
      simpa [chainEnd, numAt_1, numAt_2] using
        StateInv_pushList s ⟨hdone, hcur⟩
          [[.ltr .T, .num (args.getD 0 0), .num (args.getD 1 0)]]
          (by intro u hu; simp at hu; subst hu; rfl)
  | H =>
      simp only [readCmd]
      rw [foldl_pushPos_none]
      simpa [chainEnd, numAt_1, numAt_2] using
        StateInv_pushList s ⟨hdone, hcur⟩
          [[.ltr .L, .num (args.getD 0 0), .num s.y]]
          (by intro u hu; simp at hu; subst hu; rfl)
  | V =>
      simp only [readCmd]
      rw [foldl_pushPos_none]
      simpa [chainEnd, numAt_1, numAt_2] using
        StateInv_pushList s ⟨hdone, hcur⟩
          [[.ltr .L, .num s.x, .num (args.getD 0 0)]]
          (by intro u hu; simp at hu; subst hu; rfl)
  | Q =>
      simp only [readCmd]
      rw [foldl_pushPos_none]
      simpa [chainEnd, numAt_1, numAt_2] using
        StateInv_pushList s ⟨hdone, hcur⟩
          [[.ltr .Q, .num (args.getD 2 0), .num (args.getD 3 0),
            .num (args.getD 0 0), .num (args.getD 1 0)]]
          (by intro u hu; simp at hu; subst hu; rfl)
  | S =>
      simp only [readCmd]
      rw [foldl_pushPos_none]
      simpa [chainEnd, numAt_1, numAt_2] using
        StateInv_pushList s ⟨hdone, hcur⟩
          [[.ltr .S, .num (args.getD 2 0), .num (args.getD 3 0),
            .num (args.getD 0 0), .num (args.getD 1 0)]]
          (by intro u hu; simp at hu; subst hu; rfl)
  | C =>
      simp only [readCmd]
      rw [foldl_pushPos_none]
      simpa [chainEnd, numAt_1, numAt_2] using
        StateInv_pushList s ⟨hdone, hcur⟩
          [[.ltr .C, .num (args.getD 4 0), .num (args.getD 5 0),
            .num (args.getD 0 0), .num (args.getD 1 0),
            .num (args.getD 2 0), .num (args.getD 3 0)]]
          (by intro u hu; simp at hu; subst hu; rfl)
  | A =>
      simp only [readCmd]
      rw [foldl_pushPos_none]
      exact StateInv_pushList s ⟨hdone, hcur⟩ _
        (by intro u hu; simp at hu; obtain ⟨k, _, hu⟩ := hu; subst hu; rfl)
  | Z =>
      simp only [readCmd]
      by_cases hz : s.x ≠ s.initX ∨ s.y ≠ s.initY
      · rw [if_pos hz, foldl_pushPos_none]
        simp only [chainEnd, numAt_1, numAt_2]
        refine ⟨hdone, ?_⟩
        intro c hc
        cases hs : s.cur with
        | none => rw [hs] at hc; simp at hc
        | some c0 =>
            rw [hs] at hc
            simp at hc
            obtain ⟨mx, my, rest, hc0, hwf, hix, hiy, hxy⟩ := hcur c0 hs
            subst hix; subst hiy
            refine ⟨s.initX, s.initY, rest ++ [[.ltr .Z, .num s.initX, .num s.initY]],
              by rw [← hc, hc0]; simp, ?_, rfl, rfl, ?_⟩
            · refine cellTailWF_append _ _ rest _ _ _ hwf (Or.inr ⟨rfl, ?_⟩)
              rw [← hxy]
              exact hz
            · rw [chainEnd_append]
              simp [chainEnd, numAt_1, numAt_2]
      · rw [if_neg hz]
        exact ⟨hdone, hcur⟩

lemma StateInv_foldl (sz : Size) (act : Option Bool) :
    ∀ (l : List RawCmd) (s : RS), StateInv s →
      StateInv (l.foldl (readCmd none sz act) s) := by
  intro l
  induction l with
  | nil => intro s h; exact h
  | cons c l ih => intro s h; exact ih _ (readCmd_inv sz act s c h)

lemma readPaths_wf (cmds : List RawCmd) (sz : Size) (act : Option Bool) :
    ∀ c ∈ readPaths cmds none sz act, CellWF c := by
  have hinv : StateInv (cmds.foldl (readCmd none sz act) ⟨[], none, 0, 0, 0, 0⟩) :=
    StateInv_foldl sz act cmds _ ⟨by simp, by simp⟩
  obtain ⟨hdone, hcur⟩ := hinv
  unfold readPaths
  intro c hc
  simp only [List.mem_append] at hc
  rcases hc with hc | hc
  · exact hdone c hc
  · cases hs : (cmds.foldl (readCmd none sz act) ⟨[], none, 0, 0, 0, 0⟩).cur with
    | none => rw [hs] at hc; simp at hc
    | some c0 =>
        rw [hs] at hc; simp at hc
        obtain ⟨mx, my, rest, hc0, hwf, _, _, _⟩ := hcur c0 hs
        exact ⟨mx, my, rest, by rw [hc, hc0], hwf⟩

lemma serTup_M (a b : ℝ) : serTup [.ltr .M, .num a, .num b] = (.M, [a, b]) := rfl

lemma serTup_L (a b : ℝ) : serTup [.ltr .L, .num a, .num b] = (.L, [a, b]) := rfl

lemma serTup_T (a b : ℝ) : serTup [.ltr .T, .num a, .num b] = (.T, [a, b]) := rfl

lemma serTup_Q (a b x1 y1 : ℝ) :
    serTup [.ltr .Q, .num a, .num b, .num x1, .num y1] = (.Q, [x1, y1, a, b]) := rfl

lemma serTup_S (a b x1 y1 : ℝ) :
    serTup [.ltr .S, .num a, .num b, .num x1, .num y1] = (.S, [x1, y1, a, b]) := rfl

lemma serTup_C (a b x1 y1 x2 y2 : ℝ) :
    serTup [.ltr .C, .num a, .num b, .num x1, .num y1, .num x2, .num y2] =
      (.C, [x1, y1, x2, y2, a, b]) := rfl

lemma serTup_Z (a b : ℝ) : serTup [.ltr .Z, .num a, .num b] = (.Z, []) := rfl

lemma tupOK_cases (t : Tup) (h : tupOK t = true) :
    (∃ w a b, (w = SvgLetter.L ∨ w = SvgLetter.T) ∧ t = [.ltr w, .num a, .num b]) ∨
    (∃ w a b x1 y1, (w = SvgLetter.Q ∨ w = SvgLetter.S) ∧
      t = [.ltr w, .num a, .num b, .num x1, .num y1]) ∨
    (∃ a b x1 y1 x2 y2,
      t = [.ltr .C, .num a, .num b, .num x1, .num y1, .num x2, .num y2]) := by
  unfold tupOK at h
  split at h
  · next w a b =>
      simp at h
      rcases h with h | h
      · exact Or.inl ⟨w, a, b, Or.inl h, rfl⟩
      · exact Or.inl ⟨w, a, b, Or.inr h, rfl⟩
  · next w a b x1 y1 =>
      simp at h
      rcases h with h | h
      · exact Or.inr (Or.inl ⟨w, a, b, x1, y1, Or.inl h, rfl⟩)
      · exact Or.inr (Or.inl ⟨w, a, b, x1, y1, Or.inr h, rfl⟩)
  · next a b x1 y1 x2 y2 => exact Or.inr (Or.inr ⟨a, b, x1, y1, x2, y2, rfl⟩)
  · simp at h

lemma readCmd_ser_step (sz : Size) (act : Option Bool) (d : List Cell) (acc : Cell)
    (mx my px py : ℝ) (t : Tup)
    (ht : tupOK t = true ∨ (t = [.ltr .Z, .num mx, .num my] ∧ (px ≠ mx ∨ py ≠ my))) :
    readCmd none sz act ⟨d, some acc, px, py, mx, my⟩ (serTup t) =
      ⟨d, some (acc ++ [t]), numAt t 1, numAt t 2, mx, my⟩ := by
  rcases ht with htup | ⟨rfl, hne⟩
  · rcases tupOK_cases t htup with ⟨w, a, b, hw, rfl⟩ |
      ⟨w, a, b, x1, y1, hw, rfl⟩ | ⟨a, b, x1, y1, x2, y2, rfl⟩
    · rcases hw with rfl | rfl
      · rw [serTup_L]
        simp only [readCmd]
        rw [foldl_pushPos_none]
        simp [chainEnd, numAt_1, numAt_2]
      · rw [serTup_T]
        simp only [readCmd]
        rw [foldl_pushPos_none]
        simp [chainEnd, numAt_1, numAt_2]
    · rcases hw with rfl | rfl
      · rw [serTup_Q]
        simp only [readCmd]
        rw [foldl_pushPos_none]
        simp [chainEnd, numAt_1, numAt_2]
      · rw [serTup_S]
        simp only [readCmd]
        rw [foldl_pushPos_none]
        simp [chainEnd, numAt_1, numAt_2]
    · rw [serTup_C]
      simp only [readCmd]
      rw [foldl_pushPos_none]
      simp [chainEnd, numAt_1, numAt_2]
  · rw [serTup_Z]
    simp only [readCmd]
    rw [if_pos hne, foldl_pushPos_none]
    simp [chainEnd, numAt_1, numAt_2]

lemma foldl_readCmd_tail (sz : Size) (act : Option Bool) (mx my : ℝ) :
    ∀ (rest : List Tup) (px py : ℝ) (acc : Cell) (d : List Cell),
      cellTailWF mx my px py rest →
      List.foldl (readCmd none sz act) ⟨d, some acc, px, py, mx, my⟩ (rest.map serTup) =
        ⟨d, some (acc ++ rest), (chainEnd px py rest).1, (chainEnd px py rest).2, mx, my⟩ := by
  intro rest
  induction rest with
  | nil => intro px py acc d _; simp [chainEnd]
  | cons t rest ih =>
      intro px py acc d hwf
      rw [List.map_cons, List.foldl_cons,
          readCmd_ser_step sz act d acc mx my px py t hwf.1,
          ih (numAt t 1) (numAt t 2) (acc ++ [t]) d hwf.2]
      simp [chainEnd, List.append_assoc]

lemma foldl_readCmd_cellM (sz : Size) (act : Option Bool) (mx my : ℝ) (rest : List Tup)
    (hwf : cellTailWF mx my mx my rest) (s : RS) :
    List.foldl (readCmd none sz act) s (serCell ([.ltr .M, .num mx, .num my] :: rest)) =
      ⟨s.done ++ s.cur.toList, some ([.ltr .M, .num mx, .num my] :: rest),
       (chainEnd mx my rest).1, (chainEnd mx my rest).2, mx, my⟩ := by
  have hM : readCmd none sz act s (serTup [.ltr .M, .num mx, .num my]) =
      ⟨s.done ++ s.cur.toList, some [[.ltr .M, .num mx, .num my]], mx, my, mx, my⟩ := by
    rw [serTup_M]
    simp only [readCmd]
    rw [foldl_pushPos_none]
    simp [chainEnd, numAt_1, numAt_2]
  rw [serCell, List.map_cons, List.foldl_cons, hM,
      foldl_readCmd_tail sz act mx my rest mx my _ _ hwf]
  simp

lemma foldl_readCmd_flatten (sz : Size) (act : Option Bool) :
    ∀ (P : Polygons), (∀ c ∈ P, CellWF c) → ∀ s : RS,
      ((List.foldl (readCmd none sz act) s ((P.map serCell).flatten)).done ++
       (List.foldl (readCmd none sz act) s ((P.map serCell).flatten)).cur.toList) =
        (s.done ++ s.cur.toList) ++ P := by
  intro P
  induction P with
  | nil => intro _ s; simp
  | cons c P ih =>
      intro hwf s
      obtain ⟨mx, my, rest, rfl, hw⟩ := hwf c (by simp)
      rw [List.map_cons, List.flatten_cons, List.foldl_append,
          foldl_readCmd_cellM sz act mx my rest hw s,
          ih (fun u hu => hwf u (by simp [hu]))]
      simp

/-- C1: Codec round trip: a polygon set this codec itself produced is a
nonempty decode result, and re-decoding the token stream writePaths emits
for it reproduces the same cells in the same order, with the same command
letters and every coordinate exactly equal (hence equal within 1e-6). -/
theorem codec_round_trip (cmds : List RawCmd) (sz sz2 : Size) (a a2 : Option Bool)
    (h : readPaths cmds none sz a ≠ []) :
    readPaths (writePathsTok (readPaths cmds none sz a)) none sz2 a2 =
      readPaths cmds none sz a := by
  have hwf := readPaths_wf cmds sz a
  set P := readPaths cmds none sz a with hP
  have hlen : ¬ P.length = 0 := fun h0 => h (List.length_eq_zero.mp h0)
  unfold writePathsTok
  rw [if_neg hlen]
  show (List.foldl (readCmd none sz2 a2) ⟨[], none, 0, 0, 0, 0⟩
          ((P.map serCell).flatten)).done ++
       (List.foldl (readCmd none sz2 a2) ⟨[], none, 0, 0, 0, 0⟩
          ((P.map serCell).flatten)).cur.toList = P
  rw [foldl_readCmd_flatten sz2 a2 P hwf ⟨[], none, 0, 0, 0, 0⟩]
  simp

/-- Witness for C1 at the concrete decoded set of M0,0L1,2. -/
theorem codec_round_trip_witness :
    readPaths [(.M, [0, 0]), (.L, [1, 2])] none ⟨0, 0, 1, 1⟩ none ≠ [] ∧
    readPaths (writePathsTok (readPaths [(.M, [0, 0]), (.L, [1, 2])] none ⟨0, 0, 1, 1⟩ none))
        none ⟨0, 0, 1, 1⟩ none =
      readPaths [(.M, [0, 0]), (.L, [1, 2])] none ⟨0, 0, 1, 1⟩ none := by
  have hne : readPaths [(.M, [0, 0]), (.L, [1, 2])] none ⟨0, 0, 1, 1⟩ none ≠ [] := by
    rw [show readPaths [(.M, [0, 0]), (.L, [1, 2])] none ⟨0, 0, 1, 1⟩ none =
        [[[.ltr .M, .num 0, .num 0], [.ltr .L, .num 1, .num 2]]] from rfl]
    exact List.cons_ne_nil _ _
  exact ⟨hne, codec_round_trip _ _ _ _ _ hne⟩

/-- C9: writePaths of an empty polygon set is the degenerate placeholder
path M0,0Z and never the empty string. -/
theorem writePaths_empty (fmt : ℝ → String) :
    writePaths fmt [] = "M0,0Z" ∧ writePaths fmt [] ≠ "" := by
  refine ⟨rfl, ?_⟩
  intro h
  rw [show writePaths fmt [] = "M0,0Z" from rfl] at h
  simp at h

/-- C5: paper-referenced mapping: with no axis pixel-to-range capability
the transform subtracts the margin offset exactly when the active-shape
flag is false, divides by the plot width or height, inverts y, and remaps
into the domain sub-range when a domain is given; and this is the transform
readPaths applies to each stored coordinate pair. -/
theorem paper_space_mapping (sz : Size) (a : Option Bool) (x y : ℝ) (dm : DomainInfo) :
    (trX (some ⟨none, none, none⟩) sz a x =
      (if a = some false then x - sz.l else x) / sz.w) ∧
    (trX (some ⟨none, none, some dm⟩) sz a x =
      dm.x0 + (if a = some false then x - sz.l else x) / sz.w) ∧
    (trY (some ⟨none, none, none⟩) sz a y =
      1 - (if a = some false then y - sz.t else y) / sz.h) ∧
    (trY (some ⟨none, none, some dm⟩) sz a y =
      dm.y1 - (if a = some false then y - sz.t else y) / sz.h) ∧
    (∀ (pinfo : Option PlotInfo) (w : SvgLetter),
      transformTup pinfo sz a [.ltr w, .num x, .num y] =
        [.ltr w, .num (trX pinfo sz a x), .num (trY pinfo sz a y)]) :=
  ⟨rfl, rfl, rfl, rfl, fun _ _ => rfl⟩

/-- C7: the Z command appends one explicit closing tuple holding the
sub-path start exactly when the current point differs from the start under
exact comparison, and otherwise leaves the decode state unchanged. -/
theorem z_close_exact (pinfo : Option PlotInfo) (sz : Size) (act : Option Bool)
    (s : RS) (args : List ℝ) :
    ((s.x ≠ s.initX ∨ s.y ≠ s.initY) →
      readCmd pinfo sz act s (.Z, args) =
        ⟨s.done,
         s.cur.map (· ++ [transformTup pinfo sz act [.ltr .Z, .num s.initX, .num s.initY]]),
         s.initX, s.initY, s.initX, s.initY⟩) ∧
    (s.x = s.initX → s.y = s.initY → readCmd pinfo sz act s (.Z, args) = s) := by
  constructor
  · intro hz
    simp only [readCmd]
    rw [if_pos hz]
    simp only [List.foldl_cons, List.foldl_nil, pushPos, numAt_1, numAt_2]
  · intro h1 h2
    simp only [readCmd]
    rw [if_neg (by push_neg; exact ⟨h1, h2⟩)]

/-- C8: a double click removes the indexed vertex only when its cell has
more than 4 entries; on a 5-entry cell exactly the indexed vertex goes,
leaving 4 tuples with order and values preserved. -/
theorem vertex_delete_minimum (polys : Polygons) (i j : ℕ) :
    ((polys.getD i []).length ≤ 4 → clickVertexController 2 polys i j = polys) ∧
    ((polys.getD i []).length = 5 → j < 5 →
      clickVertexController 2 polys i j = polys.set i ((polys.getD i []).eraseIdx j) ∧
      ((polys.getD i []).eraseIdx j).length = 4 ∧
      (polys.getD i []).eraseIdx j =
        (polys.getD i []).take j ++ (polys.getD i []).drop (j + 1)) := by
  constructor
  · intro hle
    unfold clickVertexController
    rw [if_pos rfl, if_neg (by omega)]
  · intro h5 hj
    have hne : ¬ polys.length = 0 := by
      intro h0
      rw [List.length_eq_zero.mp h0] at h5
      simp at h5
    refine ⟨?_, ?_, ?_⟩
    · unfold clickVertexController removeVertex
      rw [if_pos rfl, if_pos (by omega), if_neg hne]
    · rw [List.length_eraseIdx, h5, if_pos hj]
    · exact List.eraseIdx_eq_take_drop_succ _ _

/-- C2 (amended): the source rectangle predicate holds exactly when the
cell has 5 entries, satisfies the per-axis parallelogram tolerance test,
vertex 0 shares its x-coordinate within tolerance 1e-6 with vertex 1 or
vertex 3, and neither adjacent edge has zero length. -/
theorem rectangle_classification_amended (cell : Cell) :
    pointsShapeRectangle cell ↔ rectangleClaimAmended cell := by
  unfold pointsShapeRectangle rectangleClaimAmended
  rw [mul_ne_zero_iff]

/-- Counterexample to C2 as stated: a quad the source accepts as a
rectangle although no pair of adjacent vertices shares an exact
x-coordinate. -/
theorem rectangle_exact_share_cex :
    pointsShapeRectangle rectCex ∧ ¬ rectangleClaimExact rectCex := by
  constructor
  · refine ⟨rfl, ?_, ?_, ?_⟩
    · intro j hj
      simp only [List.mem_cons, List.mem_singleton] at hj
      rcases hj with rfl | rfl | h
      · constructor <;> norm_num [rectCex, cellNum, tupAt, numAt, almostEq]
      · constructor <;> norm_num [rectCex, cellNum, tupAt, numAt, almostEq]
      · simp at h
    · left
      norm_num [rectCex, cellNum, tupAt, numAt, almostEq, abs_le]
    · apply mul_ne_zero
      · rw [dist, Real.sqrt_ne_zero']
        norm_num [rectCex, tupAt, numAt]
      · rw [dist, Real.sqrt_ne_zero']
        norm_num [rectCex, tupAt, numAt]
  · rintro ⟨-, -, ⟨i, hi, hshare⟩, -⟩
    interval_cases i <;> norm_num [rectCex, cellNum, tupAt, numAt] at hshare

/-- C3: the source ellipse predicate coincides with the claim wording
(mirrored index (-i) mod CIRCLE_SIDES, antipodal index + CIRCLE_SIDES/2
mod CIRCLE_SIDES). -/
theorem ellipse_classification (cell : Cell) :
    pointsShapeEllipse cell ↔ ellipseClaim cell := by
  unfold pointsShapeEllipse ellipseClaim
  refine and_congr_right (fun _ => forall₂_congr (fun i hi => ?_))
  have hi32 : i < 32 := by simpa [CIRCLE_SIDES] using hi
  have h1 : (CIRCLE_SIDES * 2 - i) % CIRCLE_SIDES = (-(i : ℤ) % (CIRCLE_SIDES : ℤ)).toNat := by
    simp only [CIRCLE_SIDES]
    omega
  have h2 : (CIRCLE_SIDES / 2 + i) % CIRCLE_SIDES = (i + CIRCLE_SIDES / 2) % CIRCLE_SIDES := by
    rw [Nat.add_comm]
  rw [h1, h2, Nat.add_comm (CIRCLE_SIDES / 2)]

open Classical in
lemma reconcileEntry_eq_anchor (b inp a : Shape)
    (hb : b.shapeType = some .line ∨ b.shapeType = some .rect ∨ b.shapeType = some .circle) :
    reconcileEntry b inp a =
      if hasChanged b a anchorKeys then
        ({ inp with x0 := a.x0, x1 := a.x1, y0 := a.y0, y1 := a.y1 }, true)
      else (inp, false) := by
  rcases hb with hb | hb | hb <;> simp [reconcileEntry, hb]

open Classical in
lemma reconcileEntry_eq_path (b inp a : Shape) (hb : b.shapeType = some .path) :
    reconcileEntry b inp a =
      if hasChanged b a [SKey.path] then ({ inp with path := a.path }, true)
      else (inp, false) := by
  simp [reconcileEntry, hb]

lemma reconcileEntry_eq_other (b inp a : Shape) (hb : b.shapeType = none) :
    reconcileEntry b inp a = (inp, false) := by
  simp [reconcileEntry, hb]

lemma not_hasChanged_anchor (b a : Shape) (h0 : b.x0 = a.x0) (h1 : b.x1 = a.x1)
    (h2 : b.y0 = a.y0) (h3 : b.y1 = a.y1) : ¬ hasChanged b a anchorKeys := by
  rintro ⟨k, hk, hne⟩
  simp only [anchorKeys, List.mem_cons, List.not_mem_nil, or_false] at hk
  rcases hk with rfl | rfl | rfl | rfl <;> simp [getKey, h0, h1, h2, h3] at hne

lemma not_hasChanged_path (b a : Shape) (hp : b.path = a.path) :
    ¬ hasChanged b a [SKey.path] := by
  rintro ⟨k, hk, hne⟩
  simp only [List.mem_singleton] at hk
  subst hk
  simp [getKey, hp] at hne

/-- C4: reconciliation overwrites the active entry only when the
synthesized record differs on the relevant keys under exact comparison;
when every relevant key is exactly equal, updatedActiveShape is false and
the entry is left unchanged. -/
theorem reconcile_exact_equality (b inp a : Shape) :
    ((reconcileEntry b inp a).2 = false → (reconcileEntry b inp a).1 = inp) ∧
    ((b.shapeType = some .line ∨ b.shapeType = some .rect ∨ b.shapeType = some .circle) →
      ((reconcileEntry b inp a).2 = true ↔ hasChanged b a anchorKeys) ∧
      (b.x0 = a.x0 → b.x1 = a.x1 → b.y0 = a.y0 → b.y1 = a.y1 →
        reconcileEntry b inp a = (inp, false))) ∧
    (b.shapeType = some .path →
      ((reconcileEntry b inp a).2 = true ↔ hasChanged b a [SKey.path]) ∧
      (b.path = a.path → reconcileEntry b inp a = (inp, false))) := by
  refine ⟨?_, ?_, ?_⟩
  · intro h
    rcases hb : b.shapeType with _ | t
    · rw [reconcileEntry_eq_other b inp a hb]
    · cases t
      case line =>
        rw [reconcileEntry_eq_anchor b inp a (Or.inl hb)] at h ⊢
        by_cases hc : hasChanged b a anchorKeys
        · rw [if_pos hc] at h; simp at h
        · rw [if_neg hc]
      case rect =>
        rw [reconcileEntry_eq_anchor b inp a (Or.inr (Or.inl hb))] at h ⊢
        by_cases hc : hasChanged b a anchorKeys
        · rw [if_pos hc] at h; simp at h
        · rw [if_neg hc]
      case circle =>
        rw [reconcileEntry_eq_anchor b inp a (Or.inr (Or.inr hb))] at h ⊢
        by_cases hc : hasChanged b a anchorKeys
        · rw [if_pos hc] at h; simp at h
        · rw [if_neg hc]
      case path =>
        rw [reconcileEntry_eq_path b inp a hb] at h ⊢
        by_cases hc : hasChanged b a [SKey.path]
        · rw [if_pos hc] at h; simp at h
        · rw [if_neg hc]
  · intro hb3
    rw [reconcileEntry_eq_anchor b inp a hb3]
    constructor
    · by_cases hc : hasChanged b a anchorKeys
      · simp [if_pos hc, hc]
      · simp [if_neg hc, hc]
    · intro h0 h1 h2 h3
      rw [if_neg (not_hasChanged_anchor b a h0 h1 h2 h3)]
  · intro hbp
    rw [reconcileEntry_eq_path b inp a hbp]
    constructor
    · by_cases hc : hasChanged b a [SKey.path]
      · simp [if_pos hc, hc]
      · simp [if_neg hc, hc]
    · intro hp
      rw [if_neg (not_hasChanged_path b a hp)]

/-- C10: a decoded cell of fewer than 2 tuples yields no shape record in
any drawing configuration: the synthesizer loop of addNewShapes skips it
and processes the remaining cells in order. -/
theorem degenerate_cell_skip (cfg : DrawCfg) (cells : List Cell) :
    newShapesOf cfg cells =
      newShapesOf cfg (cells.filter (fun c => decide (2 ≤ c.length))) ∧
    (∀ c : Cell, c.length < 2 → synthCell cfg c = none) ∧
    (∀ (pre post : List Cell) (c : Cell), c.length < 2 →
      newShapesOf cfg (pre ++ c :: post) = newShapesOf cfg (pre ++ post)) := by
  have hnone : ∀ c : Cell, c.length < 2 → synthCell cfg c = none := by
    intro c hc
    unfold synthCell
    rw [if_pos hc]
  refine ⟨?_, hnone, ?_⟩
  · induction cells with
    | nil => rfl
    | cons c cells ih =>
        by_cases hc : 2 ≤ c.length
        · rw [List.filter_cons_of_pos (by simpa using hc)]
          unfold newShapesOf at ih ⊢
          cases h : synthCell cfg c <;> simp [List.filterMap_cons, h, ih]
        · rw [List.filter_cons_of_neg (by simpa using hc)]
          unfold newShapesOf at ih ⊢
          rw [List.filterMap_cons_none (hnone c (by omega))]
          exact ih
  · intro pre post c hc
    unfold newShapesOf
    rw [List.filterMap_append, List.filterMap_append,
        List.filterMap_cons_none (hnone c hc)]

lemma SQRT2_ne_zero : SQRT2 ≠ 0 := by
  unfold SQRT2
  rw [Real.sqrt_ne_zero']
  norm_num

lemma sqrt2_mul_self : Real.sqrt 2 * Real.sqrt 2 = 2 := Real.mul_self_sqrt (by norm_num)

lemma ellipseOver_eval (p : Pos) :
    ellipseOver p = ⟨p.x0 - (p.x1 - p.x0) * SQRT2, p.y0 - (p.y1 - p.y0) * SQRT2,
                     p.x0 + (p.x1 - p.x0) * SQRT2, p.y0 + (p.y1 - p.y0) * SQRT2⟩ := by
  unfold ellipseOver
  ext <;> dsimp only <;> ring

lemma handleEllipse_eval (x0 y0 x1 y1 : ℝ) (hdx : x1 - x0 ≠ 0) (hdy : y1 - y0 ≠ 0) :
    handleEllipse true (x0, y0) (x1, y1) =
      (List.range CIRCLE_SIDES).map (fun (i : ℕ) =>
        (x0 + (x1 - x0) * SQRT2 * (Real.cos (i * 2 * Real.pi / CIRCLE_SIDES)),
         y0 + (y1 - y0) * SQRT2 * (Real.sin (i * 2 * Real.pi / CIRCLE_SIDES)))) := by
  have hrx : ¬ ((x0 + (x1 - x0) * SQRT2) - (x0 - (x1 - x0) * SQRT2)) / 2 = 0 := by
    have he : ((x0 + (x1 - x0) * SQRT2) - (x0 - (x1 - x0) * SQRT2)) / 2 = (x1 - x0) * SQRT2 := by
      ring
    rw [he]
    exact mul_ne_zero hdx SQRT2_ne_zero
  have hry : ¬ ((y0 + (y1 - y0) * SQRT2) - (y0 - (y1 - y0) * SQRT2)) / 2 = 0 := by
    have he : ((y0 + (y1 - y0) * SQRT2) - (y0 - (y1 - y0) * SQRT2)) / 2 = (y1 - y0) * SQRT2 := by
      ring
    rw [he]
    exact mul_ne_zero hdy SQRT2_ne_zero
  unfold handleEllipse
  rw [if_neg (by simp)]
  rw [ellipseOver_eval]
  dsimp only
  simp only [if_neg hrx, if_neg hry]
  refine List.map_congr_left (fun i _ => ?_)
  simp only [Prod.mk.injEq]
  constructor <;> ring

lemma ellipse_sample (x0 y0 x1 y1 : ℝ) (hdx : x1 - x0 ≠ 0) (hdy : y1 - y0 ≠ 0)
    (i : ℕ) (hi : i < CIRCLE_SIDES) :
    cellNum (cellOfPairs (handleEllipse true (x0, y0) (x1, y1))) i 1 =
      x0 + (x1 - x0) * SQRT2 * (Real.cos (i * 2 * Real.pi / CIRCLE_SIDES)) ∧
    cellNum (cellOfPairs (handleEllipse true (x0, y0) (x1, y1))) i 2 =
      y0 + (y1 - y0) * SQRT2 * (Real.sin (i * 2 * Real.pi / CIRCLE_SIDES)) := by
  rw [handleEllipse_eval x0 y0 x1 y1 hdx hdy]
  unfold cellOfPairs cellNum tupAt
  rw [List.map_map, List.getD_eq_getElem?_getD, List.getElem?_map, List.getElem?_range hi]
  exact ⟨rfl, rfl⟩

lemma circleCorners_eval (x0 y0 x1 y1 : ℝ) (hdx : x1 - x0 ≠ 0) (hdy : y1 - y0 ≠ 0) :
    circleCornersEdit (cellOfPairs (handleEllipse true (x0, y0) (x1, y1))) =
      ellipseOver ⟨x0, y0, x1, y1⟩ ∧
    circleCornersFresh (cellOfPairs (handleEllipse true (x0, y0) (x1, y1))) =
      ⟨(ellipseOver ⟨x0, y0, x1, y1⟩).x1, (ellipseOver ⟨x0, y0, x1, y1⟩).y1,
       (ellipseOver ⟨x0, y0, x1, y1⟩).x0, (ellipseOver ⟨x0, y0, x1, y1⟩).y0⟩ := by
  have hs := sqrt2_mul_self
  obtain ⟨hX0, hY0⟩ := ellipse_sample x0 y0 x1 y1 hdx hdy 0 (by norm_num [CIRCLE_SIDES])
  obtain ⟨hX4, hY4⟩ := ellipse_sample x0 y0 x1 y1 hdx hdy 4 (by norm_num [CIRCLE_SIDES])
  obtain ⟨hX8, hY8⟩ := ellipse_sample x0 y0 x1 y1 hdx hdy 8 (by norm_num [CIRCLE_SIDES])
  obtain ⟨hX16, hY16⟩ := ellipse_sample x0 y0 x1 y1 hdx hdy 16 (by norm_num [CIRCLE_SIDES])
  obtain ⟨hX24, hY24⟩ := ellipse_sample x0 y0 x1 y1 hdx hdy 24 (by norm_num [CIRCLE_SIDES])
  simp only [CIRCLE_SIDES] at hX0 hY0 hX4 hY4 hX8 hY8 hX16 hY16 hX24 hY24
  push_cast at hX0 hY0 hX4 hY4 hX8 hY8 hX16 hY16 hX24 hY24
  rw [show (0:ℝ) * 2 * Real.pi / 32 = 0 by ring] at hX0 hY0
  rw [show (4:ℝ) * 2 * Real.pi / 32 = Real.pi / 4 by ring] at hX4 hY4
  rw [show (8:ℝ) * 2 * Real.pi / 32 = Real.pi / 2 by ring] at hX8 hY8
  rw [show (16:ℝ) * 2 * Real.pi / 32 = Real.pi by ring] at hX16 hY16
  rw [show (24:ℝ) * 2 * Real.pi / 32 = Real.pi + Real.pi / 2 by ring] at hX24 hY24
  have c24 : Real.cos (Real.pi + Real.pi / 2) = 0 := by
    rw [Real.cos_add]
    simp
  have s24 : Real.sin (Real.pi + Real.pi / 2) = -1 := by
    rw [Real.sin_add]
    simp
  rw [Real.cos_zero] at hX0
  rw [Real.sin_zero] at hY0
  rw [Real.cos_pi_div_four] at hX4
  rw [Real.sin_pi_div_four] at hY4
  rw [Real.cos_pi_div_two] at hX8
  rw [Real.sin_pi_div_two] at hY8
  rw [Real.cos_pi] at hX16
  rw [Real.sin_pi] at hY16
  rw [c24] at hX24
  rw [s24] at hY24
  constructor
  · unfold circleCornersEdit
    simp only [show i000 = 0 from rfl, show i045 = 4 from rfl, show i180 = 16 from rfl]
    rw [hX0, hX16, hY0, hY16, hX4, hY4, ellipseOver_eval, ellipseOver_eval]
    unfold SQRT2
    refine Pos.ext ?_ ?_ ?_ ?_ <;> dsimp only
    · linear_combination (-(x1 - x0) * Real.sqrt 2 / 2) * hs
    · linear_combination (-(y1 - y0) * Real.sqrt 2 / 2) * hs
    · linear_combination ((x1 - x0) * Real.sqrt 2 / 2) * hs
    · linear_combination ((y1 - y0) * Real.sqrt 2 / 2) * hs
  · unfold circleCornersFresh
    simp only [show i000 = 0 from rfl, show i045 = 4 from rfl, show i090 = 8 from rfl,
               show i180 = 16 from rfl, show i270 = 24 from rfl]
    rw [hX0, hX8, hX16, hX24, hY0, hY8, hY16, hY24]
    unfold cos45 sin45
    rw [Real.cos_pi_div_four, Real.sin_pi_div_four, ellipseOver_eval, ellipseOver_eval]
    unfold SQRT2
    refine Pos.ext ?_ ?_ ?_ ?_ <;> dsimp only
    · linear_combination ((x1 - x0) * Real.sqrt 2 / 2) * hs
    · linear_combination ((y1 - y0) * Real.sqrt 2 / 2) * hs
    · linear_combination (-(x1 - x0) * Real.sqrt 2 / 2) * hs
    · linear_combination (-(y1 - y0) * Real.sqrt 2 / 2) * hs

/-- C6 (amended): deriving corners back from the cell built out of two drag
corners does not reproduce the drag corners; it yields the ellipse bounding
box ellipseOver(x0, y0, x1, y1): the edited-shape branch returns it exactly
and the fresh-draw branch returns it with the two corners swapped, so the
centre (x0, y0) and the half-extents sqrt2 times (x1 - x0) and (y1 - y0)
of the drawn ellipse are preserved. -/
theorem ellipse_corner_bbox (x0 y0 x1 y1 : ℝ) (hdx : x1 - x0 ≠ 0) (hdy : y1 - y0 ≠ 0) :
    circleCornersEdit (cellOfPairs (handleEllipse true (x0, y0) (x1, y1))) =
      ellipseOver ⟨x0, y0, x1, y1⟩ ∧
    circleCornersFresh (cellOfPairs (handleEllipse true (x0, y0) (x1, y1))) =
      ⟨(ellipseOver ⟨x0, y0, x1, y1⟩).x1, (ellipseOver ⟨x0, y0, x1, y1⟩).y1,
       (ellipseOver ⟨x0, y0, x1, y1⟩).x0, (ellipseOver ⟨x0, y0, x1, y1⟩).y0⟩ ∧
    ((ellipseOver ⟨x0, y0, x1, y1⟩).x0 + (ellipseOver ⟨x0, y0, x1, y1⟩).x1) / 2 = x0 ∧
    ((ellipseOver ⟨x0, y0, x1, y1⟩).y0 + (ellipseOver ⟨x0, y0, x1, y1⟩).y1) / 2 = y0 ∧
    ((ellipseOver ⟨x0, y0, x1, y1⟩).x1 - (ellipseOver ⟨x0, y0, x1, y1⟩).x0) / 2 =
      SQRT2 * (x1 - x0) ∧
    ((ellipseOver ⟨x0, y0, x1, y1⟩).y1 - (ellipseOver ⟨x0, y0, x1, y1⟩).y0) / 2 =
      SQRT2 * (y1 - y0) := by
  obtain ⟨h1, h2⟩ := circleCorners_eval x0 y0 x1 y1 hdx hdy
  refine ⟨h1, h2, ?_, ?_, ?_, ?_⟩ <;> rw [ellipseOver_eval] <;> dsimp only <;> ring

/-- Counterexample to C6 as stated: from the drag corners (0,0) and (1,1)
the derived x0 is sqrt 2 (fresh draw) or minus sqrt 2 (edited shape), not
within 1e-6 of the original x0 = 0. -/
theorem ellipse_corner_cex :
    ¬ almostEq (circleCornersFresh (cellOfPairs (handleEllipse true (0, 0) (1, 1)))).x0 0 ∧
    ¬ almostEq (circleCornersEdit (cellOfPairs (handleEllipse true (0, 0) (1, 1)))).x0 0 := by
  obtain ⟨h1, h2⟩ := circleCorners_eval 0 0 1 1 (by norm_num) (by norm_num)
  have hsq : (1:ℝ) ≤ Real.sqrt 2 := by
    rw [show (1:ℝ) = Real.sqrt 1 from (Real.sqrt_one).symm]
    exact Real.sqrt_le_sqrt (by norm_num)
  constructor
  · rw [h2]
    dsimp only
    rw [ellipseOver_eval]
    unfold SQRT2 almostEq
    dsimp only
    intro hc
    rw [show (0:ℝ) + (1 - 0) * Real.sqrt 2 - 0 = Real.sqrt 2 by ring,
        abs_of_nonneg (Real.sqrt_nonneg 2)] at hc
    have hle : (1:ℝ) ≤ 1e-6 := le_trans hsq hc
    norm_num at hle
  · rw [h1]
    rw [ellipseOver_eval]
    unfold SQRT2 almostEq
    dsimp only
    intro hc
    rw [show (0:ℝ) - (1 - 0) * Real.sqrt 2 - 0 = -Real.sqrt 2 by ring, abs_neg,
        abs_of_nonneg (Real.sqrt_nonneg 2)] at hc
    have hle : (1:ℝ) ≤ 1e-6 := le_trans hsq hc
    norm_num at hle

/-- Witness for the amended C6 at the drag corners (0,0) and (1,1). -/
theorem ellipse_corner_bbox_witness :
    circleCornersEdit (cellOfPairs (handleEllipse true (0, 0) (1, 1))) =
      ellipseOver ⟨0, 0, 1, 1⟩ ∧
    circleCornersFresh (cellOfPairs (handleEllipse true (0, 0) (1, 1))) =
      ⟨(ellipseOver ⟨0, 0, 1, 1⟩).x1, (ellipseOver ⟨0, 0, 1, 1⟩).y1,
       (ellipseOver ⟨0, 0, 1, 1⟩).x0, (ellipseOver ⟨0, 0, 1, 1⟩).y0⟩ := by
  have h := ellipse_corner_bbox 0 0 1 1 (by norm_num) (by norm_num)
  exact ⟨h.1, h.2.1⟩

end NewShape
